import Mathlib

/-!
Verification of the super-rag ingestion/embedding and query pipelines.

The Python source (`service/embedding.py`, `service/router.py`,
`models/vector_database.py`, `models/delete.py`) is shallowly embedded:
external collaborators (HTTP download, the `unstructured` partitioner and
chunker, the encoders, the vector-database clients, the summarization LLM,
the semantic-router classifier and the `uuid4` generator) become function
parameters (oracles); exception-raising code becomes `Except`; Python dicts
whose later keys override earlier ones become association lists with a
last-binding-wins lookup.
-/

namespace SuperRag

/-- A Python value as it appears in chunk metadata.  `str`, `int`, `float`,
`bool` and `list` are the types Pinecone accepts (the `isinstance` check in
`generate_chunks`); `other` stands for any other Python object, carrying the
string `str(value)` would produce. Floats are modelled as rationals (no claim
computes with them). -/
inductive PyVal where
  | str (s : String)
  | int (n : Int)
  | float (q : Rat)
  | bool (b : Bool)
  | list (l : List PyVal)
  | other (reprStr : String)
  deriving Repr

/-- An `unstructured` element: exposes `.text` and `.metadata.to_dict()`. -/
structure Element where
  text : String
  metadata : List (String × PyVal)
  deriving Repr

/-- Modelled from the spec: `models/document.py` is not in the sources.
`Document`: `{id, content, source_url, metadata}`. -/
structure BaseDocument where
  id : String
  content : String
  doc_url : String
  metadata : List (String × PyVal)
  deriving Repr

/-- Modelled from the spec: `models/document.py` is not in the sources.
`DocumentChunk`: `{id, document_id, content, source_url, metadata,
page_number?}` with the optional page number absent by default. -/
structure BaseDocumentChunk where
  id : String := ""
  document_id : String := ""
  content : String := ""
  doc_url : String := ""
  metadata : List (String × PyVal) := []
  page_number : Option Nat := none
  deriving Repr, Inhabited

/-- A `File` as supplied by the caller: `{url, type}` where `type` is the
name of the enum member (`file.type.value` in the source). -/
structure File where
  url : String
  type : String
  deriving Repr

/-- `EmbeddingService._get_datasource_suffix`: dictionary lookup raising
`ValueError("Unsupported datasource type")` on a missing key. -/
def get_datasource_suffix (type : String) : Except String String :=
  match type with
  | "TXT" => .ok ".txt"
  | "PDF" => .ok ".pdf"
  | "MARKDOWN" => .ok ".md"
  | "DOCX" => .ok ".docx"
  | "CSV" => .ok ".csv"
  | "XLSX" => .ok ".xlsx"
  | _ => .error "Unsupported datasource type"

/-- Whether a metadata value passes the
`isinstance(value, (str, int, float, bool, list))` check in
`generate_chunks`. -/
def isPrimitive : PyVal → Bool
  | .other _ => false
  | _ => true

/-- Python's `str(value)`; only the `other` branch is ever reached by the
sanitizer, the rest is best effort. -/
def pyStr : PyVal → String
  | .str s => s
  | .int n => toString n
  | .float q => toString q
  | .bool b => if b then "True" else "False"
  | .list _ => "[...]"
  | .other r => r

/-- The metadata sanitization comprehension in `generate_chunks`:
`value if isinstance(value, (str, int, float, bool, list)) else str(value)`. -/
def sanitizeMetadata (m : List (String × PyVal)) : List (String × PyVal) :=
  m.map (fun kv => (kv.1, if isPrimitive kv.2 then kv.2 else PyVal.str (pyStr kv.2)))

/-- Lookup in a Python dict built from an association list where a later
binding of the same key overrides an earlier one (the semantics of
`{k1: v1, ..., **spread}`). -/
def dictGet (m : List (String × PyVal)) (k : String) : Option PyVal :=
  (m.reverse.find? (fun kv => kv.1 == k)).map (fun kv => kv.2)

/-- The metadata dict literal built for each chunk in `generate_chunks`:
six fixed entries followed by the `**sanitized_metadata` spread (which, being
last, overrides any fixed entry whose key it repeats). -/
def chunkMetadata (chunk_id document_id source document_type content : String)
    (sanitized : List (String × PyVal)) : List (String × PyVal) :=
  [("chunk_id", PyVal.str chunk_id),
   ("document_id", PyVal.str document_id),
   ("source", PyVal.str source),
   ("source_type", PyVal.str "document"),
   ("document_type", PyVal.str document_type),
   ("content", PyVal.str content)]
  ++ sanitized

/-- `EmbeddingService.generate_document` (the `doc_id` is the
`f"doc_{uuid.uuid4()}"` value, supplied by the caller's uuid oracle; the
suffix was already computed for this file).  Empty concatenated content
yields `none` (the document is discarded); the surrounding `try/except`
has nothing else to catch in this pure model. -/
def generate_document (file : File) (suffix : String) (doc_id : String)
    (elements : List Element) : Option BaseDocument :=
  let doc_content := String.join (elements.map (fun e => e.text))
  if doc_content = "" then none
  else some
    { id := doc_id
      content := doc_content
      doc_url := file.url
      metadata := [("source", PyVal.str file.url),
                   ("source_type", PyVal.str "document"),
                   ("document_type", PyVal.str suffix)] }

/-- The body of the per-file `try` block of `generate_chunks` for one file:
suffix lookup (raises on unsupported type), download + partition (the
`fetch` oracle, which may raise), document generation, `chunk_by_title`
(the `chunker` oracle) and construction of the `BaseDocumentChunk` list.
`docUuid` / `chunkUuid` supply the `uuid4` draws for the document id and the
chunk ids. -/
def processFileE (fetch : File → Except String (List Element))
    (chunker : List Element → List Element)
    (docUuid : String) (chunkUuid : Nat → String)
    (file : File) : Except String (List BaseDocumentChunk) :=
  match get_datasource_suffix file.type with
  | .error e => .error e
  | .ok suffix =>
    match fetch file with
    | .error e => .error e
    | .ok elements =>
      match generate_document file suffix ("doc_" ++ docUuid) elements with
      | none => .ok []
      | some document =>
          let chunks := chunker elements
          .ok (chunks.enum.map (fun ic =>
            let chunk_id := "chk_" ++ chunkUuid ic.1
            { id := chunk_id
              document_id := document.id
              content := ic.2.text
              doc_url := file.url
              metadata := chunkMetadata chunk_id document.id file.url suffix
                            ic.2.text (sanitizeMetadata ic.2.metadata) }))

/-- The per-file `try/except` of `generate_chunks`: an exception is caught
and logged and the file contributes nothing. -/
def processFile (fetch : File → Except String (List Element))
    (chunker : List Element → List Element)
    (docUuid : String) (chunkUuid : Nat → String)
    (file : File) : List BaseDocumentChunk :=
  match processFileE fetch chunker docUuid chunkUuid file with
  | .ok l => l
  | .error _ => []

/-- The file loop of `EmbeddingService.generate_chunks`, carrying the index
of the current file so that each file's uuid draws are its own (uuid4 draws
are independent of other files). -/
def generate_chunksFrom (fetch : File → Except String (List Element))
    (chunker : List Element → List Element)
    (docUuid : Nat → String) (chunkUuid : Nat → Nat → String) :
    Nat → List File → List BaseDocumentChunk
  | _, [] => []
  | i, f :: fs =>
      processFile fetch chunker (docUuid i) (chunkUuid i) f
        ++ generate_chunksFrom fetch chunker docUuid chunkUuid (i + 1) fs

/-- `EmbeddingService.generate_chunks`. -/
def generate_chunks (fetch : File → Except String (List Element))
    (chunker : List Element → List Element)
    (docUuid : Nat → String) (chunkUuid : Nat → Nat → String)
    (files : List File) : List BaseDocumentChunk :=
  generate_chunksFrom fetch chunker docUuid chunkUuid 0 files

example :
    generate_chunks (fun _ => .ok [{ text := "hello", metadata := [] }])
      (fun es => es) (fun _ => "D") (fun _ _ => "C")
      [{ url := "u", type := "TXT" }]
    = [{ id := "chk_C", document_id := "doc_D", content := "hello",
         doc_url := "u",
         metadata := chunkMetadata "chk_C" "doc_D" "u" ".txt" "hello" [] }] := by
  rfl

/-! ## Embedding pipeline (`EmbeddingService.generate_embeddings`) -/

/-- An embedding vector (`np.array(e).tolist()`); the numeric contents are
opaque to every claim, so entries are modelled as integers. -/
abbrev Vec := List Int

/-- The `(id, vector, metadata)` triple upserted into the vector store. -/
abbrev EmbeddingRecord := String × Vec × List (String × PyVal)

/-- `safe_generate_embedding` wrapping `generate_embedding`: the encoder
oracle returns `none` when `encoder([document.content])` raises; an empty
encoder result makes `embeddings[0]` raise `IndexError`, equally caught by
the wrapper.  A failure yields `none` (the chunk is skipped). -/
def safe_generate_embedding (enc : String → Option (List Vec))
    (document : BaseDocumentChunk) : Option EmbeddingRecord :=
  match enc document.content with
  | none => none
  | some embeddings =>
      match embeddings.head? with
      | none => none
      | some v => some (document.id, v, document.metadata)

/-- The fan-out/fan-in stage of `generate_embeddings`: `asyncio.gather`
preserves input order, and the `None` results of failed tasks are filtered
out. -/
def gatherEmbeddings (enc : String → Option (List Vec))
    (documents : List BaseDocumentChunk) : List EmbeddingRecord :=
  documents.filterMap (safe_generate_embedding enc)

/-- `EmbeddingService.generate_embeddings`: embed every chunk with per-chunk
failure isolation, then, if anything survived, upsert the batch; an upsert
error is logged and re-raised as
`Exception(f"Error upserting embeddings: {e}")`. -/
def generate_embeddings (enc : String → Option (List Vec))
    (upsert : List EmbeddingRecord → Except String Unit)
    (documents : List BaseDocumentChunk) :
    Except String (List EmbeddingRecord) :=
  if (gatherEmbeddings enc documents).isEmpty then
    .ok (gatherEmbeddings enc documents)
  else
    match upsert (gatherEmbeddings enc documents) with
    | .ok _ => .ok (gatherEmbeddings enc documents)
    | .error e => .error ("Error upserting embeddings: " ++ e)

/-! ## Summarization pass (`EmbeddingService.generate_summary_documents`) -/

/-- One iteration of the loop of `generate_summary_documents` on the
insertion-ordered `pages` dict: a page not seen before deep-copies the chunk
and replaces its content by `completion(document)` (the `summarize` oracle);
a page already present has the chunk's raw content appended to its
aggregate's content. -/
def upsertPage (summarize : BaseDocumentChunk → String)
    (pages : List (Option Nat × BaseDocumentChunk))
    (document : BaseDocumentChunk) :
    List (Option Nat × BaseDocumentChunk) :=
  if document.page_number ∉ pages.map Prod.fst then
    pages ++ [(document.page_number, { document with content := summarize document })]
  else
    pages.map (fun p =>
      if p.1 = document.page_number
      then (p.1, { p.2 with content := p.2.content ++ document.content })
      else p)

/-- `EmbeddingService.generate_summary_documents`: fold the chunks through
the `pages` dict (keyed by `page_number`, `None` being a key like any
other) and return `list(pages.values())` in insertion order. -/
def generate_summary_documents (summarize : BaseDocumentChunk → String)
    (documents : List BaseDocumentChunk) : List BaseDocumentChunk :=
  (documents.foldl (upsertPage summarize) []).map Prod.snd

/-! ## Query router (`service/router.py`) -/

/-- A semantic-router `Route`; the score threshold `0.5` is modelled as a
rational. -/
structure Route where
  name : String
  utterances : List String
  score_threshold : Rat
  deriving Repr

/-- The route list built inside `create_route_layer` (note the `Summmarize`
typo is the source's). -/
def create_route_layer_routes : List Route :=
  [{ name := "summarize"
     utterances := ["Summmarize the following", "Could you summarize the",
                    "Summarize", "Provide a summary of"]
     score_threshold := 1/2 }]

/-- Modelled from the spec: the request payload of the retrieval facade
carries `{query_text, index_name, vector_database_config, encoder_choice}`
(`models/query.py` is not in the sources); the backend config and encoder
choice are absorbed into the `get_vector_service` oracle. -/
structure RequestPayload where
  input : String
  index_name : String
  deriving Repr

/-- The two vector-store capabilities the read path uses:
`query(input, top_k)` and `rerank(query, documents)`. -/
structure BaseVectorDatabase where
  query : String → Nat → List BaseDocumentChunk
  rerank : String → List BaseDocumentChunk → List BaseDocumentChunk

/-- `get_documents`: top-5 candidate retrieval, early empty return, else
rerank verbatim. -/
def get_documents (vector_service : BaseVectorDatabase)
    (payload : RequestPayload) : List BaseDocumentChunk :=
  let chunks := vector_service.query payload.input 5
  if chunks.length = 0 then []
  else vector_service.rerank payload.input chunks

/-- `query` in `service/router.py`.  `classify` is the semantic-router
layer's `rl(payload.input).name` (`none` when no route fires), applied to
the routes the layer was constructed from; `get_vector_service` is the
store factory; `summary_suffix` is `SUMMARY_SUFFIX` (modelled from the
spec: `utils/summarise.py` is not in the sources, the spec only calls it
"a fixed suffix").  The second component records each construction of a
route layer (and its `Route` definitions) performed during this
invocation: the source executes `rl = create_route_layer()` once per call. -/
def query (classify : List Route → String → Option String)
    (get_vector_service : String → BaseVectorDatabase)
    (summary_suffix : String) (payload : RequestPayload) :
    List BaseDocumentChunk × List (List Route) :=
  let rl := create_route_layer_routes
  let decision := classify rl payload.input
  if decision = some "summarize" then
    (get_documents (get_vector_service (payload.index_name ++ summary_suffix))
       payload, [rl])
  else
    (get_documents (get_vector_service payload.index_name) payload, [rl])

/-! ## Characterization of the summarization pass

`generate_summary_documents` is proved equal to a direct description: one
output chunk per distinct `page_number` (in first-occurrence order), each a
copy of the first chunk of its page whose content is the summary of that
first chunk followed by the raw contents of the page's remaining chunks. -/

/-- One step of collecting the distinct page numbers in first-occurrence
order. -/
def pageKeysStep (acc : List (Option Nat)) (d : BaseDocumentChunk) :
    List (Option Nat) :=
  if d.page_number ∈ acc then acc else acc ++ [d.page_number]

/-- The distinct `page_number` values of the input, in order of first
occurrence — the key order of the `pages` dict. -/
def pageKeys (documents : List BaseDocumentChunk) : List (Option Nat) :=
  documents.foldl pageKeysStep []

/-- The output chunk the pass produces for page `p`: the first input chunk
on that page, its content replaced by the summary of that first chunk with
the raw contents of the page's later chunks appended. -/
def pageAggregate (summarize : BaseDocumentChunk → String)
    (documents : List BaseDocumentChunk) (p : Option Nat) :
    BaseDocumentChunk :=
  match documents.filter (fun c => decide (c.page_number = p)) with
  | [] => default
  | first :: rest =>
      { first with
        content := rest.foldl (fun acc c => acc ++ c.content) (summarize first) }

/-- The fully-evaluated `pages` dict after the whole input was folded in. -/
def specPages (summarize : BaseDocumentChunk → String)
    (documents : List BaseDocumentChunk) :
    List (Option Nat × BaseDocumentChunk) :=
  (pageKeys documents).map (fun p => (p, pageAggregate summarize documents p))

lemma mem_foldl_pageKeysStep (p : Option Nat) :
    ∀ (l : List BaseDocumentChunk) (acc : List (Option Nat)),
      p ∈ l.foldl pageKeysStep acc ↔ p ∈ acc ∨ ∃ c ∈ l, c.page_number = p := by
  intro l
  induction l with
  | nil => intro acc; simp
  | cons d l ih =>
      intro acc
      have hstep : p ∈ pageKeysStep acc d ↔ p ∈ acc ∨ d.page_number = p := by
        unfold pageKeysStep
        split
        next h =>
          constructor
          · exact Or.inl
          · rintro (hp | hp)
            · exact hp
            · exact hp ▸ h
        next h => simp [List.mem_append, eq_comm]
      rw [List.foldl_cons, ih, hstep]
      simp only [List.mem_cons]
      constructor
      · rintro ((hp | hp) | ⟨c, hc, hcp⟩)
        · exact Or.inl hp
        · exact Or.inr ⟨d, Or.inl rfl, hp⟩
        · exact Or.inr ⟨c, Or.inr hc, hcp⟩
      · rintro (hp | ⟨c, (hc | hc), hcp⟩)
        · exact Or.inl (Or.inl hp)
        · exact Or.inl (Or.inr (hc ▸ hcp))
        · exact Or.inr ⟨c, hc, hcp⟩

lemma mem_pageKeys (l : List BaseDocumentChunk) (p : Option Nat) :
    p ∈ pageKeys l ↔ ∃ c ∈ l, c.page_number = p := by
  rw [pageKeys, mem_foldl_pageKeysStep]
  simp

lemma nodup_foldl_pageKeysStep :
    ∀ (l : List BaseDocumentChunk) (acc : List (Option Nat)),
      acc.Nodup → (l.foldl pageKeysStep acc).Nodup := by
  intro l
  induction l with
  | nil => intro acc h; simpa using h
  | cons d l ih =>
      intro acc h
      rw [List.foldl_cons]
      apply ih
      unfold pageKeysStep
      split
      next => exact h
      next hnd => simp [List.nodup_append, h, hnd]

lemma pageKeys_nodup (l : List BaseDocumentChunk) : (pageKeys l).Nodup :=
  nodup_foldl_pageKeysStep l [] List.nodup_nil

lemma pageKeys_snoc (l : List BaseDocumentChunk) (d : BaseDocumentChunk) :
    pageKeys (l ++ [d]) = pageKeysStep (pageKeys l) d := by
  simp [pageKeys, List.foldl_append]

lemma filter_page_eq_nil_of_not_mem_pageKeys (l : List BaseDocumentChunk)
    (p : Option Nat) (h : p ∉ pageKeys l) :
    l.filter (fun c => decide (c.page_number = p)) = [] := by
  rw [List.filter_eq_nil_iff]
  intro c hc
  simp only [decide_eq_true_eq]
  intro hcp
  exact h ((mem_pageKeys l p).mpr ⟨c, hc, hcp⟩)

lemma filter_page_ne_nil_of_mem_pageKeys (l : List BaseDocumentChunk)
    (p : Option Nat) (h : p ∈ pageKeys l) :
    l.filter (fun c => decide (c.page_number = p)) ≠ [] := by
  obtain ⟨c, hc, hcp⟩ := (mem_pageKeys l p).mp h
  exact List.ne_nil_of_mem (List.mem_filter.mpr ⟨hc, by simp [hcp]⟩)

lemma specPages_snoc (s : BaseDocumentChunk → String)
    (l : List BaseDocumentChunk) (d : BaseDocumentChunk) :
    specPages s (l ++ [d]) = upsertPage s (specPages s l) d := by
  have hkeys : (specPages s l).map Prod.fst = pageKeys l := by
    simp [specPages, Function.comp_def]
  by_cases hm : d.page_number ∈ pageKeys l
  · -- the page already has an entry: the dict-update branch runs
    have hfil := filter_page_ne_nil_of_mem_pageKeys l d.page_number hm
    obtain ⟨first, rest, hfl⟩ := List.exists_cons_of_ne_nil hfil
    rw [upsertPage, if_neg (by rw [hkeys]; simpa using hm)]
    rw [specPages, pageKeys_snoc, pageKeysStep, if_pos hm, specPages,
      List.map_map]
    apply List.map_congr_left
    intro p hp
    simp only [Function.comp_apply]
    by_cases hpd : p = d.page_number
    · subst hpd
      rw [if_pos rfl]
      have hLf : (l ++ [d]).filter
          (fun c => decide (c.page_number = d.page_number))
          = first :: (rest ++ [d]) := by
        rw [List.filter_append, hfl]; simp
      unfold pageAggregate
      rw [hLf, hfl]
      simp [List.foldl_append]
    · rw [if_neg hpd]
      have hdp : d.page_number ≠ p := fun h => hpd h.symm
      have hflt : (l ++ [d]).filter (fun c => decide (c.page_number = p))
          = l.filter (fun c => decide (c.page_number = p)) := by
        rw [List.filter_append]
        simp [hdp]
      unfold pageAggregate
      rw [hflt]
  · -- first chunk of this page: a fresh entry is appended
    rw [upsertPage, if_pos (by rw [hkeys]; simpa using hm)]
    rw [specPages, pageKeys_snoc, pageKeysStep, if_neg hm, List.map_append]
    congr 1
    · rw [specPages]
      apply List.map_congr_left
      intro p hp
      have hdp : d.page_number ≠ p := fun h => hm (h ▸ hp)
      have hflt : (l ++ [d]).filter (fun c => decide (c.page_number = p))
          = l.filter (fun c => decide (c.page_number = p)) := by
        rw [List.filter_append]
        simp [hdp]
      unfold pageAggregate
      rw [hflt]
    · have h0 : l.filter (fun c => decide (c.page_number = d.page_number))
          = [] := filter_page_eq_nil_of_not_mem_pageKeys l _ hm
      have hsing : (l ++ [d]).filter
          (fun c => decide (c.page_number = d.page_number)) = [d] := by
        rw [List.filter_append, h0]; simp
      simp only [List.map_cons, List.map_nil]
      unfold pageAggregate
      rw [hsing]
      simp

lemma foldl_upsertPage_eq_specPages (s : BaseDocumentChunk → String)
    (docs : List BaseDocumentChunk) :
    docs.foldl (upsertPage s) [] = specPages s docs := by
  induction docs using List.reverseRecOn with
  | nil => rfl
  | append_singleton l d ih =>
      rw [List.foldl_append, List.foldl_cons, List.foldl_nil, ih,
        ← specPages_snoc]

/-- The summarization pass, fully characterized: one output chunk per
distinct page, in first-occurrence order, each described by
`pageAggregate`. -/
lemma generate_summary_documents_eq (s : BaseDocumentChunk → String)
    (docs : List BaseDocumentChunk) :
    generate_summary_documents s docs
      = (pageKeys docs).map (pageAggregate s docs) := by
  rw [generate_summary_documents, foldl_upsertPage_eq_specPages, specPages,
    List.map_map]
  rfl

/-! ## Helper lemmas for the embedding pipeline -/

lemma safe_generate_embedding_none {enc : String → Option (List Vec)}
    {d : BaseDocumentChunk} (h : enc d.content = none) :
    safe_generate_embedding enc d = none := by
  unfold safe_generate_embedding
  rw [h]

lemma safe_generate_embedding_fst {enc : String → Option (List Vec)}
    {d : BaseDocumentChunk} {r : EmbeddingRecord}
    (h : safe_generate_embedding enc d = some r) : r.1 = d.id := by
  unfold safe_generate_embedding at h
  cases he : enc d.content with
  | none => rw [he] at h; cases h
  | some embs =>
      rw [he] at h
      dsimp only at h
      cases hh : embs.head? with
      | none => rw [hh] at h; cases h
      | some v => rw [hh] at h; cases h; rfl

lemma safe_generate_embedding_isSome {enc : String → Option (List Vec)}
    {d : BaseDocumentChunk} {v : Vec} {vs : List Vec}
    (h : enc d.content = some (v :: vs)) :
    safe_generate_embedding enc d = some (d.id, v, d.metadata) := by
  unfold safe_generate_embedding
  rw [h]
  rfl

lemma length_filterMap_of_isSome {α β : Type} {f : α → Option β} :
    ∀ {l : List α}, (∀ a ∈ l, (f a).isSome) →
      (l.filterMap f).length = l.length := by
  intro l
  induction l with
  | nil => intro _; rfl
  | cons a l ih =>
      intro h
      obtain ⟨b, hb⟩ := Option.isSome_iff_exists.mp (h a (List.mem_cons_self a l))
      rw [List.filterMap_cons_some hb, List.length_cons, List.length_cons,
        ih (fun x hx => h x (List.mem_cons_of_mem a hx))]

lemma generate_embeddings_ok {enc : String → Option (List Vec)}
    {upsert : List EmbeddingRecord → Except String Unit}
    {documents : List BaseDocumentChunk} {out : List EmbeddingRecord}
    (h : generate_embeddings enc upsert documents = .ok out) :
    out = gatherEmbeddings enc documents := by
  unfold generate_embeddings at h
  split at h
  · cases h; rfl
  · split at h
    · cases h; rfl
    · cases h

/-! ## Helper lemmas for the chunk builder and the summary filter -/

lemma generate_chunksFrom_append (fetch : File → Except String (List Element))
    (chunker : List Element → List Element)
    (docUuid : Nat → String) (chunkUuid : Nat → Nat → String) :
    ∀ (l₁ l₂ : List File) (i : Nat),
      generate_chunksFrom fetch chunker docUuid chunkUuid i (l₁ ++ l₂)
        = generate_chunksFrom fetch chunker docUuid chunkUuid i l₁
          ++ generate_chunksFrom fetch chunker docUuid chunkUuid
               (i + l₁.length) l₂ := by
  intro l₁
  induction l₁ with
  | nil => intro l₂ i; simp [generate_chunksFrom]
  | cons f fs ih =>
      intro l₂ i
      have hcons : ∀ (j : Nat) (g : File) (gs : List File),
          generate_chunksFrom fetch chunker docUuid chunkUuid j (g :: gs)
            = processFile fetch chunker (docUuid j) (chunkUuid j) g
              ++ generate_chunksFrom fetch chunker docUuid chunkUuid (j + 1) gs :=
        fun _ _ _ => rfl
      rw [List.cons_append, hcons, hcons, ih, List.append_assoc,
        List.length_cons]
      have harith : i + 1 + fs.length = i + (fs.length + 1) := by omega
      rw [harith]

lemma dictGet_append_of_keys_ne (m s : List (String × PyVal)) (k : String)
    (hs : ∀ kv ∈ s, kv.1 ≠ k) : dictGet (m ++ s) k = dictGet m k := by
  unfold dictGet
  rw [List.reverse_append, List.find?_append]
  have hnone : s.reverse.find? (fun kv => kv.1 == k) = none := by
    rw [List.find?_eq_none]
    intro kv hkv
    simp [hs kv (List.mem_reverse.mp hkv)]
  rw [hnone]
  rfl

lemma sanitizeMetadata_keys_ne {m : List (String × PyVal)} {k : String}
    (h : ∀ kv ∈ m, kv.1 ≠ k) :
    ∀ kv ∈ sanitizeMetadata m, kv.1 ≠ k := by
  intro kv hkv
  unfold sanitizeMetadata at hkv
  obtain ⟨kv', hkv', hmap⟩ := List.mem_map.mp hkv
  rw [← hmap]
  exact h kv' hkv'

lemma snd_mem_of_mem_enumFrom {α : Type} :
    ∀ (l : List α) (n : Nat) (p : Nat × α), p ∈ l.enumFrom n → p.2 ∈ l := by
  intro l
  induction l with
  | nil => intro n p hp; cases hp
  | cons a l ih =>
      intro n p hp
      rw [List.enumFrom] at hp
      rcases List.mem_cons.mp hp with h | h
      · rw [h]; exact List.mem_cons_self a l
      · exact List.mem_cons_of_mem a (ih (n + 1) p h)

lemma snd_mem_of_mem_enum {α : Type} (l : List α) (p : Nat × α)
    (hp : p ∈ l.enum) : p.2 ∈ l :=
  snd_mem_of_mem_enumFrom l 0 p hp

lemma filter_eq_singleton_of_nodup :
    ∀ {l : List (Option Nat)} {a : Option Nat}, l.Nodup → a ∈ l →
      l.filter (fun x => decide (x = a)) = [a] := by
  intro l
  induction l with
  | nil => intro a _ ha; cases ha
  | cons b l ih =>
      intro a hnd ha
      rw [List.nodup_cons] at hnd
      rcases List.mem_cons.mp ha with h | h
      · subst h
        rw [List.filter_cons, if_pos (by simp)]
        have hnil : l.filter (fun x => decide (x = a)) = [] := by
          rw [List.filter_eq_nil_iff]
          intro c hc
          simp only [decide_eq_true_eq]
          intro hca
          exact hnd.1 (hca ▸ hc)
        rw [hnil]
      · have hba : b ≠ a := fun hb => hnd.1 (hb ▸ h)
        rw [List.filter_cons, if_neg (by simp [hba])]
        exact ih hnd.2 h

lemma pageAggregate_page_number (s : BaseDocumentChunk → String)
    (docs : List BaseDocumentChunk) (p : Option Nat)
    (hp : p ∈ pageKeys docs) :
    (pageAggregate s docs p).page_number = p := by
  obtain ⟨first, rest, hfl⟩ := List.exists_cons_of_ne_nil
    (filter_page_ne_nil_of_mem_pageKeys docs p hp)
  have hfp : first.page_number = p := by
    have hm : first ∈ docs.filter (fun c => decide (c.page_number = p)) := by
      rw [hfl]; exact List.mem_cons_self _ _
    simpa using (List.mem_filter.mp hm).2
  unfold pageAggregate
  rw [hfl]
  exact hfp

/-! ## Claim theorems -/

/-- **C7**: `generate_summary_documents` produces exactly one output chunk
per distinct `page_number` among the inputs (keys `pageKeys docs`, without
duplicates, exactly the pages occurring in the input), and each output chunk
is `pageAggregate`: a copy of the first chunk seen on its page whose content
is the summarizer's output on that first chunk — the summarizer is applied
to no other chunk — followed by the raw contents of the page's remaining
chunks in order. -/
theorem generate_summary_documents_one_per_page
    (s : BaseDocumentChunk → String) (docs : List BaseDocumentChunk) :
    generate_summary_documents s docs
        = (pageKeys docs).map (pageAggregate s docs)
      ∧ (generate_summary_documents s docs).length = (pageKeys docs).length
      ∧ (pageKeys docs).Nodup
      ∧ ∀ p : Option Nat, p ∈ pageKeys docs ↔ ∃ c ∈ docs, c.page_number = p := by
  refine ⟨generate_summary_documents_eq s docs, ?_, pageKeys_nodup docs,
    fun p => mem_pageKeys docs p⟩
  rw [generate_summary_documents_eq, List.length_map]

/-- **C10**: chunks whose `page_number` is absent (`None`) are grouped as a
single page: when the input has at least one such chunk, the output contains
exactly one chunk for them, built from the first page-less chunk by
summarizing it and appending the raw contents of all later page-less
chunks. -/
theorem generate_summary_documents_none_page
    (s : BaseDocumentChunk → String) (docs : List BaseDocumentChunk)
    (first : BaseDocumentChunk) (rest : List BaseDocumentChunk)
    (h : docs.filter (fun c => decide (c.page_number = none)) = first :: rest) :
    (generate_summary_documents s docs).filter
        (fun c => decide (c.page_number = none))
      = [{ first with
           content := rest.foldl (fun acc c => acc ++ c.content) (s first) }] := by
  have hmem : (none : Option Nat) ∈ pageKeys docs := by
    rw [mem_pageKeys]
    have hf : first ∈ docs.filter (fun c => decide (c.page_number = none)) := by
      rw [h]; exact List.mem_cons_self _ _
    obtain ⟨h1, h2⟩ := List.mem_filter.mp hf
    exact ⟨first, h1, by simpa using h2⟩
  rw [generate_summary_documents_eq, List.filter_map]
  have hflt : (pageKeys docs).filter
        ((fun c => decide (c.page_number = (none : Option Nat)))
          ∘ pageAggregate s docs)
      = (pageKeys docs).filter (fun p' => decide (p' = (none : Option Nat))) := by
    apply List.filter_congr
    intro p' hp'
    simp only [Function.comp_apply]
    rw [pageAggregate_page_number s docs p' hp']
  rw [hflt, filter_eq_singleton_of_nodup (pageKeys_nodup docs) hmem]
  simp only [List.map_cons, List.map_nil]
  unfold pageAggregate
  rw [h]

/-- **C8**: a file whose processing raises (e.g. an unsupported type, which
raises from the suffix lookup) or whose extracted content is empty (the
document is discarded, `processFileE` returns the empty chunk list)
contributes nothing, and the chunks of every file before and after it are
returned unchanged — the run never aborts. -/
theorem generate_chunks_fault_isolation
    (fetch : File → Except String (List Element))
    (chunker : List Element → List Element)
    (docUuid : Nat → String) (chunkUuid : Nat → Nat → String)
    (l₁ l₂ : List File) (f : File)
    (h : (∃ e, processFileE fetch chunker (docUuid l₁.length)
               (chunkUuid l₁.length) f = .error e)
         ∨ processFileE fetch chunker (docUuid l₁.length)
             (chunkUuid l₁.length) f = .ok []) :
    generate_chunks fetch chunker docUuid chunkUuid (l₁ ++ f :: l₂)
      = generate_chunksFrom fetch chunker docUuid chunkUuid 0 l₁
        ++ generate_chunksFrom fetch chunker docUuid chunkUuid
             (l₁.length + 1) l₂ := by
  have hpf : processFile fetch chunker (docUuid l₁.length)
      (chunkUuid l₁.length) f = [] := by
    unfold processFile
    rcases h with ⟨e, he⟩ | he <;> rw [he]
  unfold generate_chunks
  rw [generate_chunksFrom_append]
  congr 1
  have h0 : 0 + l₁.length = l₁.length := by omega
  rw [h0]
  have hcons : generate_chunksFrom fetch chunker docUuid chunkUuid
      l₁.length (f :: l₂)
      = processFile fetch chunker (docUuid l₁.length) (chunkUuid l₁.length) f
        ++ generate_chunksFrom fetch chunker docUuid chunkUuid
             (l₁.length + 1) l₂ := rfl
  rw [hcons, hpf, List.nil_append]

/-- **C1** (amended): the self-description invariant
`metadata["chunk_id"] == id`, `metadata["document_id"] == document_id`,
`metadata["content"] == content` holds for every chunk `generate_chunks`
produces **provided** the parsing collaborator's element metadata contains
none of the keys `chunk_id`, `document_id`, `content` — the
`**sanitized_metadata` spread is last in the dict literal, so such a key
would override the invariant field. -/
theorem generate_chunks_metadata_invariant
    (fetch : File → Except String (List Element))
    (chunker : List Element → List Element)
    (docUuid : Nat → String) (chunkUuid : Nat → Nat → String)
    (files : List File)
    (h : ∀ f elems, fetch f = .ok elems → ∀ c ∈ chunker elems,
          ∀ kv ∈ c.metadata,
            kv.1 ≠ "chunk_id" ∧ kv.1 ≠ "document_id" ∧ kv.1 ≠ "content") :
    ∀ chunk ∈ generate_chunks fetch chunker docUuid chunkUuid files,
      dictGet chunk.metadata "chunk_id" = some (PyVal.str chunk.id)
      ∧ dictGet chunk.metadata "document_id"
          = some (PyVal.str chunk.document_id)
      ∧ dictGet chunk.metadata "content" = some (PyVal.str chunk.content) := by
  suffices H : ∀ (i : Nat) (fs : List File),
      ∀ chunk ∈ generate_chunksFrom fetch chunker docUuid chunkUuid i fs,
        dictGet chunk.metadata "chunk_id" = some (PyVal.str chunk.id)
        ∧ dictGet chunk.metadata "document_id"
            = some (PyVal.str chunk.document_id)
        ∧ dictGet chunk.metadata "content" = some (PyVal.str chunk.content) by
    exact fun chunk hc => H 0 files chunk hc
  intro i fs
  induction fs generalizing i with
  | nil => intro chunk hc; exact absurd hc (List.not_mem_nil chunk)
  | cons f fs' ih =>
      intro chunk hc
      rcases List.mem_append.mp hc with hcf | hcf
      · unfold processFile at hcf
        cases hpe : processFileE fetch chunker (docUuid i) (chunkUuid i) f with
        | error e =>
            rw [hpe] at hcf
            exact absurd hcf (List.not_mem_nil chunk)
        | ok L =>
            rw [hpe] at hcf
            unfold processFileE at hpe
            cases hsfx : get_datasource_suffix f.type with
            | error e => rw [hsfx] at hpe; cases hpe
            | ok sfx =>
              rw [hsfx] at hpe
              dsimp only at hpe
              cases hfet : fetch f with
              | error e => rw [hfet] at hpe; cases hpe
              | ok elements =>
                rw [hfet] at hpe
                dsimp only at hpe
                cases hdoc : generate_document f sfx ("doc_" ++ docUuid i)
                    elements with
                | none =>
                    rw [hdoc] at hpe
                    dsimp only at hpe
                    injection hpe with hL
                    rw [← hL] at hcf
                    exact absurd hcf (List.not_mem_nil chunk)
                | some document =>
                    rw [hdoc] at hpe
                    dsimp only at hpe
                    injection hpe with hL
                    rw [← hL] at hcf
                    obtain ⟨ic, hic, hchunk⟩ := List.mem_map.mp hcf
                    have hmemel : ic.2 ∈ chunker elements :=
                      snd_mem_of_mem_enum _ ic hic
                    have hkv := h f elements hfet ic.2 hmemel
                    rw [← hchunk]
                    dsimp only
                    refine ⟨?_, ?_, ?_⟩
                    · rw [chunkMetadata, dictGet_append_of_keys_ne _ _ _
                        (sanitizeMetadata_keys_ne (fun kv hm => (hkv kv hm).1))]
                      rfl
                    · rw [chunkMetadata, dictGet_append_of_keys_ne _ _ _
                        (sanitizeMetadata_keys_ne (fun kv hm => (hkv kv hm).2.1))]
                      rfl
                    · rw [chunkMetadata, dictGet_append_of_keys_ne _ _ _
                        (sanitizeMetadata_keys_ne (fun kv hm => (hkv kv hm).2.2))]
                      rfl
      · exact ih (i + 1) chunk hcf

/-- **C2**: when the gathered embedding set is non-empty and the vector
store's `upsert` raises during the commit step, `generate_embeddings`
re-raises: the whole run fails with the wrapped upsert error and no partial
result is returned. -/
theorem generate_embeddings_upsert_error (enc : String → Option (List Vec))
    (upsert : List EmbeddingRecord → Except String Unit)
    (documents : List BaseDocumentChunk) (e : String)
    (hne : gatherEmbeddings enc documents ≠ [])
    (hup : upsert (gatherEmbeddings enc documents) = .error e) :
    generate_embeddings enc upsert documents
      = .error ("Error upserting embeddings: " ++ e) := by
  unfold generate_embeddings
  rw [if_neg (by simpa using hne), hup]

/-- **C3**: when exactly one chunk's encoder invocation raises and every
other chunk embeds successfully, the result is the other chunks' records
(size batch − 1), contains no record for the failing chunk, and equals the
result of running the batch without the failing chunk. -/
theorem generate_embeddings_isolation (enc : String → Option (List Vec))
    (upsert : List EmbeddingRecord → Except String Unit)
    (l₁ l₂ : List BaseDocumentChunk) (bad : BaseDocumentChunk)
    (hbad : enc bad.content = none)
    (hgood : ∀ d ∈ l₁ ++ l₂, ∃ v vs, enc d.content = some (v :: vs))
    (hup : upsert (gatherEmbeddings enc l₁ ++ gatherEmbeddings enc l₂)
            = .ok ())
    (hid : bad.id ∉ (l₁ ++ l₂).map (fun d => d.id)) :
    ∃ out,
      generate_embeddings enc upsert (l₁ ++ bad :: l₂) = .ok out
      ∧ out = gatherEmbeddings enc l₁ ++ gatherEmbeddings enc l₂
      ∧ out.length = (l₁ ++ bad :: l₂).length - 1
      ∧ (∀ r ∈ out, r.1 ≠ bad.id)
      ∧ generate_embeddings enc upsert (l₁ ++ l₂) = .ok out := by
  have hgE : gatherEmbeddings enc (l₁ ++ bad :: l₂)
      = gatherEmbeddings enc l₁ ++ gatherEmbeddings enc l₂ := by
    unfold gatherEmbeddings
    rw [List.filterMap_append,
      List.filterMap_cons_none (safe_generate_embedding_none hbad)]
  have hgE2 : gatherEmbeddings enc (l₁ ++ l₂)
      = gatherEmbeddings enc l₁ ++ gatherEmbeddings enc l₂ := by
    unfold gatherEmbeddings
    rw [List.filterMap_append]
  have hok1 : generate_embeddings enc upsert (l₁ ++ bad :: l₂)
      = .ok (gatherEmbeddings enc l₁ ++ gatherEmbeddings enc l₂) := by
    unfold generate_embeddings
    rw [hgE]
    by_cases hE : (gatherEmbeddings enc l₁ ++ gatherEmbeddings enc l₂).isEmpty
    · rw [if_pos hE]
    · rw [if_neg hE, hup]
  have hok2 : generate_embeddings enc upsert (l₁ ++ l₂)
      = .ok (gatherEmbeddings enc l₁ ++ gatherEmbeddings enc l₂) := by
    unfold generate_embeddings
    rw [hgE2]
    by_cases hE : (gatherEmbeddings enc l₁ ++ gatherEmbeddings enc l₂).isEmpty
    · rw [if_pos hE]
    · rw [if_neg hE, hup]
  have hlen1 : (gatherEmbeddings enc l₁).length = l₁.length := by
    apply length_filterMap_of_isSome
    intro d hd
    obtain ⟨v, vs, hv⟩ := hgood d (List.mem_append_left _ hd)
    rw [safe_generate_embedding_isSome hv]
    rfl
  have hlen2 : (gatherEmbeddings enc l₂).length = l₂.length := by
    apply length_filterMap_of_isSome
    intro d hd
    obtain ⟨v, vs, hv⟩ := hgood d (List.mem_append_right _ hd)
    rw [safe_generate_embedding_isSome hv]
    rfl
  refine ⟨_, hok1, rfl, ?_, ?_, hok2⟩
  · rw [List.length_append, hlen1, hlen2]
    simp only [List.length_append, List.length_cons]
    omega
  · intro r hr
    have hrid : ∃ d, d ∈ l₁ ++ l₂ ∧ r.1 = d.id := by
      rcases List.mem_append.mp hr with hr' | hr'
      · obtain ⟨d, hd, hfd⟩ := List.mem_filterMap.mp hr'
        exact ⟨d, List.mem_append_left _ hd, safe_generate_embedding_fst hfd⟩
      · obtain ⟨d, hd, hfd⟩ := List.mem_filterMap.mp hr'
        exact ⟨d, List.mem_append_right _ hd, safe_generate_embedding_fst hfd⟩
    obtain ⟨d, hd, hrd⟩ := hrid
    rw [hrd]
    intro hdb
    exact hid (hdb ▸ List.mem_map_of_mem (fun d => d.id) hd)

/-- **C4**: the record list `generate_embeddings` returns preserves input
order — for any two successfully embedded chunks, the earlier chunk's record
precedes the later chunk's record, failed chunks being simply absent. -/
theorem generate_embeddings_preserves_order (enc : String → Option (List Vec))
    (upsert : List EmbeddingRecord → Except String Unit)
    (l₁ l₂ l₃ : List BaseDocumentChunk) (di dj : BaseDocumentChunk)
    (ri rj : EmbeddingRecord) (out : List EmbeddingRecord)
    (hi : safe_generate_embedding enc di = some ri)
    (hj : safe_generate_embedding enc dj = some rj)
    (hok : generate_embeddings enc upsert (l₁ ++ di :: (l₂ ++ dj :: l₃))
            = .ok out) :
    out = gatherEmbeddings enc l₁
          ++ ri :: (gatherEmbeddings enc l₂ ++ rj :: gatherEmbeddings enc l₃) := by
  rw [generate_embeddings_ok hok]
  unfold gatherEmbeddings
  rw [List.filterMap_append, List.filterMap_cons_some hi,
    List.filterMap_append, List.filterMap_cons_some hj]

/-- **C5**: the retrieval pipeline binds the vector store to
`index_name ++ summary_suffix` exactly when the router classifies the query
text as the `summarize` intent, and to the unmodified `index_name` for every
other routing decision (including `none`, no route firing). -/
theorem query_index_binding (classify : List Route → String → Option String)
    (gvs : String → BaseVectorDatabase) (summary_suffix : String)
    (payload : RequestPayload) :
    (query classify gvs summary_suffix payload).1
      = get_documents
          (gvs (if classify create_route_layer_routes payload.input
                  = some "summarize"
                then payload.index_name ++ summary_suffix
                else payload.index_name))
          payload := by
  unfold query
  by_cases h : classify create_route_layer_routes payload.input
      = some "summarize" <;> simp [h]

/-- **C6**: a query returning zero candidates makes `get_documents` return
`[]` without ever invoking `rerank` (the result is `[]` for every rerank
implementation); a non-empty candidate set is passed to `rerank` and its
output is returned verbatim. -/
theorem get_documents_empty_or_rerank (vs : BaseVectorDatabase)
    (payload : RequestPayload) :
    (vs.query payload.input 5 = [] → get_documents vs payload = [])
    ∧ (∀ rerank2 : String → List BaseDocumentChunk → List BaseDocumentChunk,
        vs.query payload.input 5 = [] →
        get_documents { query := vs.query, rerank := rerank2 } payload = [])
    ∧ (vs.query payload.input 5 ≠ [] →
        get_documents vs payload
          = vs.rerank payload.input (vs.query payload.input 5)) := by
  refine ⟨?_, ?_, ?_⟩
  · intro h
    unfold get_documents
    rw [h]
    rfl
  · intro rerank2 h
    unfold get_documents
    dsimp only
    rw [h]
    rfl
  · intro h
    unfold get_documents
    rw [if_neg (fun hc => h (List.length_eq_zero.mp hc))]

/-- **C9** (amended): the `Route` content is static — every invocation of
the query pipeline constructs its route layer from the same fixed list
`create_route_layer_routes` — but a fresh route layer (with fresh `Route`
definitions) is constructed on **each** invocation of `query`, one per
call, not once per process. -/
theorem query_constructs_one_route_layer_per_call
    (classify : List Route → String → Option String)
    (gvs : String → BaseVectorDatabase) (summary_suffix : String)
    (payload : RequestPayload) :
    (query classify gvs summary_suffix payload).2
      = [create_route_layer_routes] := by
  unfold query
  by_cases h : classify create_route_layer_routes payload.input
      = some "summarize" <;> simp [h]

/-! ## Concrete fixtures for counterexamples and witnesses -/

/-- A download-and-partition oracle returning one element of text. -/
def wFetch : File → Except String (List Element) :=
  fun _ => .ok [{ text := "hello", metadata := [] }]

/-- A `chunk_by_title` oracle passing the elements through. -/
def wChunker : List Element → List Element := fun es => es

/-- An encoder oracle succeeding on contents `"a"` and `"b"` and raising on
everything else. -/
def encW : String → Option (List Vec) := fun s =>
  if s = "a" then some [[1]] else if s = "b" then some [[2]] else none

/-- A run of `generate_chunks` in which the parsing collaborator's element
metadata itself contains a `content` key. -/
def overrideRun : List BaseDocumentChunk :=
  generate_chunks (fun _ => .ok [{ text := "hello", metadata := [] }])
    (fun _ => [{ text := "good", metadata := [("content", PyVal.str "evil")] }])
    (fun _ => "D") (fun _ _ => "C") [{ url := "u", type := "TXT" }]

/-- A run of `generate_chunks` whose element metadata carries only benign
keys. -/
def benignRun : List BaseDocumentChunk :=
  generate_chunks (fun _ => .ok [{ text := "hello", metadata := [] }])
    (fun _ => [{ text := "hello", metadata := [("page_number", PyVal.int 1)] }])
    (fun _ => "D") (fun _ _ => "C") [{ url := "u", type := "TXT" }]

/-- **C1** fails as stated: because `**sanitized_metadata` is spread last in
the chunk's metadata dict literal, an element metadata key `content`
overrides the chunk's own content copy, so the invariant does **not** hold
regardless of what keys the parsing collaborator's element metadata
contains. -/
theorem generate_chunks_metadata_override_counterexample :
    ∃ chunk ∈ overrideRun,
      dictGet chunk.metadata "content" ≠ some (PyVal.str chunk.content) := by
  refine ⟨{ id := "chk_C", document_id := "doc_D", content := "good",
            doc_url := "u",
            metadata := chunkMetadata "chk_C" "doc_D" "u" ".txt" "good"
              [("content", PyVal.str "evil")] }, ?_, ?_⟩
  · exact List.mem_cons_self _ _
  · intro hcontra
    have h1 : dictGet (chunkMetadata "chk_C" "doc_D" "u" ".txt" "good"
        [("content", PyVal.str "evil")]) "content"
        = some (PyVal.str "evil") := rfl
    dsimp only at hcontra
    rw [h1] at hcontra
    injection hcontra with h2
    injection h2 with h3
    exact absurd h3 (by decide)

/-- Witness for the amended **C1**: on a run with benign element metadata
the invariant holds for the produced chunk. -/
theorem generate_chunks_metadata_invariant_witness :
    dictGet (benignRun.headD default).metadata "content"
      = some (PyVal.str (benignRun.headD default).content) :=
  (generate_chunks_metadata_invariant
    (fun _ => .ok [{ text := "hello", metadata := [] }])
    (fun _ => [{ text := "hello",
                 metadata := [("page_number", PyVal.int 1)] }])
    (fun _ => "D") (fun _ _ => "C") [{ url := "u", type := "TXT" }]
    (by
      intro f elems hf c hc kv hkv
      injection hf with h1
      subst h1
      rw [List.mem_singleton] at hc
      subst hc
      dsimp only at hkv
      rw [List.mem_singleton] at hkv
      subst hkv
      exact ⟨by decide, by decide, by decide⟩)
    (benignRun.headD default)
    (by exact List.mem_cons_self _ _)).2.2

/-- Witness for **C2**: a concrete failing upsert makes the run fail with
the wrapped error. -/
theorem generate_embeddings_upsert_error_witness :
    generate_embeddings (fun _ => some [[1]]) (fun _ => .error "boom")
        [{ id := "1" }]
      = .error ("Error upserting embeddings: " ++ "boom") :=
  generate_embeddings_upsert_error (fun _ => some [[1]])
    (fun _ => .error "boom") [{ id := "1" }] "boom"
    (by exact List.cons_ne_nil _ _) rfl

/-- Witness for **C3**: in a three-chunk batch whose middle chunk's encoder
call raises, the run succeeds with two records. -/
theorem generate_embeddings_isolation_witness :
    ∃ out,
      generate_embeddings encW (fun _ => .ok ())
        [{ id := "1", content := "a" }, { id := "X", content := "x" },
         { id := "2", content := "b" }] = .ok out
      ∧ out.length = 2 := by
  obtain ⟨out, h1, _, h3, _, _⟩ :=
    generate_embeddings_isolation encW (fun _ => .ok ())
      [{ id := "1", content := "a" }] [{ id := "2", content := "b" }]
      { id := "X", content := "x" }
      rfl
      (by
        intro d hd
        rcases List.mem_append.mp hd with hd | hd <;>
          rw [List.mem_singleton] at hd <;> subst hd
        · exact ⟨[1], [], rfl⟩
        · exact ⟨[2], [], rfl⟩)
      rfl
      (by decide)
  exact ⟨out, h1, by rw [h3]; rfl⟩

/-- Witness for **C4**: a concrete two-chunk batch returns the two records
in input order. -/
theorem generate_embeddings_preserves_order_witness :
    [(("1" : String), ([1] : Vec), ([] : List (String × PyVal))),
     ("2", [2], [])]
      = gatherEmbeddings encW []
        ++ ("1", [1], ([] : List (String × PyVal)))
          :: (gatherEmbeddings encW []
              ++ ("2", [2], ([] : List (String × PyVal)))
                :: gatherEmbeddings encW []) :=
  generate_embeddings_preserves_order encW (fun _ => .ok ()) [] [] []
    { id := "1", content := "a" } { id := "2", content := "b" }
    ("1", [1], []) ("2", [2], [])
    [("1", [1], []), ("2", [2], [])]
    rfl rfl rfl

/-- Witness for **C6**: a store with no candidates yields `[]`; a store with
one candidate yields the rerank output verbatim. -/
theorem get_documents_empty_or_rerank_witness :
    get_documents { query := fun _ _ => [], rerank := fun _ l => l }
        { input := "q", index_name := "i" } = []
    ∧ get_documents
        { query := fun _ _ => [{ id := "c" }], rerank := fun _ l => l ++ l }
        { input := "q", index_name := "i" }
      = [{ id := "c" }, { id := "c" }] := by
  constructor
  · exact (get_documents_empty_or_rerank
      { query := fun _ _ => [], rerank := fun _ l => l }
      { input := "q", index_name := "i" }).1 rfl
  · exact (get_documents_empty_or_rerank
      { query := fun _ _ => [{ id := "c" }], rerank := fun _ l => l ++ l }
      { input := "q", index_name := "i" }).2.2
      (by exact List.cons_ne_nil _ _)

/-- Witness for **C8**: a file of unsupported type `JSON` between two text
files is skipped, the other two files' chunks are returned. -/
theorem generate_chunks_fault_isolation_witness :
    generate_chunks wFetch wChunker (fun _ => "D") (fun _ _ => "C")
        ([{ url := "u1", type := "TXT" }]
          ++ { url := "b", type := "JSON" } :: [{ url := "u2", type := "TXT" }])
      = generate_chunksFrom wFetch wChunker (fun _ => "D") (fun _ _ => "C")
          0 [{ url := "u1", type := "TXT" }]
        ++ generate_chunksFrom wFetch wChunker (fun _ => "D") (fun _ _ => "C")
            2 [{ url := "u2", type := "TXT" }] :=
  generate_chunks_fault_isolation wFetch wChunker (fun _ => "D")
    (fun _ _ => "C")
    [{ url := "u1", type := "TXT" }] [{ url := "u2", type := "TXT" }]
    { url := "b", type := "JSON" }
    (Or.inl ⟨"Unsupported datasource type", rfl⟩)

/-- **C9** fails as stated: a single invocation of the query pipeline
constructs one fresh route layer (the construction log of the call is
non-empty), so `Route` objects are not constructed only once at startup. -/
theorem query_route_layer_once_counterexample :
    (query (fun _ _ => none)
        (fun _ => { query := fun _ _ => [], rerank := fun _ l => l })
        "_summary" { input := "q", index_name := "i" }).2.length ≠ 0 := by
  have h : (query (fun _ _ => none)
      (fun _ => { query := fun _ _ => [], rerank := fun _ l => l })
      "_summary" { input := "q", index_name := "i" }).2.length = 1 := rfl
  omega

/-- Witness for **C10**: two page-less chunks after a page-1 chunk collapse
into one summary chunk. -/
theorem generate_summary_documents_none_page_witness :
    (generate_summary_documents (fun _ => "S")
        [{ id := "a", page_number := some 1 },
         { id := "b", content := "x" },
         { id := "c", content := "y" }]).filter
        (fun c => decide (c.page_number = none))
      = [{ id := "b", content := "Sy" }] :=
  generate_summary_documents_none_page (fun _ => "S")
    [{ id := "a", page_number := some 1 },
     { id := "b", content := "x" },
     { id := "c", content := "y" }]
    { id := "b", content := "x" } [{ id := "c", content := "y" }]
    rfl

end SuperRag
